import Mathlib

/-!
Shallow embedding of the context-resolution core of monaco-xsd-code-completion
(src/XsdCompletion.ts, src/XsdManager.ts, and the CodeSuggestionCache class),
together with theorems settling the frozen claims about it.

Conventions of the embedding:
* JavaScript `Map` objects are modelled as insertion-ordered association lists
  (`mapGet` / `mapSet` mirror `Map.get` / `Map.set`).
* JavaScript regular expressions are embedded as explicit character scanners
  that reproduce the source regexes (lookbehind, greedy quantifier with
  backtracking, negative lookahead) position by position; `\s` is modelled by
  `Char.isWhitespace`.
* `undefined` is modelled by `Option.none`; JS string-template coercion of
  `undefined` is modelled by the literal "undefined".
* Machine integers do not occur; JS array indices (which may be -1 from
  `indexOf`) are modelled as `Int`.
-/

/-- JS `Map.get`: the value stored under a key, if any. -/
def mapGet {α β : Type} [DecidableEq α] (m : List (α × β)) (k : α) : Option β :=
  (m.find? (fun p => decide (p.1 = k))).map (fun p => p.2)

/-- JS `Map.set`: replace the value of an existing key in place, else append. -/
def mapSet {α β : Type} [DecidableEq α] : List (α × β) → α → β → List (α × β)
  | [], k, v => [(k, v)]
  | p :: rest, k, v => if p.1 = k then (k, v) :: rest else p :: mapSet rest k v

/-- Character of a string (as a character list) at a 0-based index. -/
def charAt (cs : List Char) (i : Nat) : Option Char := cs.get? i

/-- Whether the characters of `cs` starting at index `i` are exactly `pat`. -/
def sliceEq (cs : List Char) (i : Nat) (pat : List Char) : Bool :=
  decide ((cs.drop i).take pat.length = pat)

/-- Length of the maximal run of characters satisfying `p` starting at index `i`. -/
def runLen (cs : List Char) (i : Nat) (p : Char → Bool) : Nat :=
  ((cs.drop i).takeWhile p).length

/-- The substring (as a string) spanning indices `[i, i+len)`. -/
def sliceStr (cs : List Char) (i len : Nat) : String :=
  ((cs.drop i).take len).asString

/-- JS negative array index read: `l[i]` is `undefined` for `i < 0`. -/
def jsIdx {α : Type} (l : List α) (i : Int) : Option α :=
  if 0 ≤ i then l.get? i.toNat else none

/-- JS template-literal coercion: `undefined` renders as "undefined". -/
def jsTemplate : Option String → String
  | some s => s
  | none => "undefined"

/-- JS `String.prototype.split(sep)` for a non-empty literal separator:
split at every non-overlapping occurrence, scanning left to right.  Fuelled;
every step consumes at least one character. -/
def splitOnCharsF (sep : List Char) : Nat → List Char → List Char → List String
  | 0, _, acc => [acc.reverse.asString]
  | _ + 1, [], acc => [acc.reverse.asString]
  | fuel + 1, c :: rest, acc =>
    if (c :: rest).take sep.length = sep then
      acc.reverse.asString :: splitOnCharsF sep fuel ((c :: rest).drop sep.length) []
    else splitOnCharsF sep fuel rest (c :: acc)

/-- JS `String.prototype.split` with a literal separator string. -/
def jsSplit (s : String) (sep : String) : List String :=
  splitOnCharsF sep.data (s.data.length + 1) s.data []

/-- The `CompletionType` enum of the source (CompletionType.ts members as used). -/
inductive CompletionType
  | none
  | element
  | attribute
  | closingElement
  | incompleteElement
  | incompleteAttribute
  | snippet
deriving DecidableEq, Repr

/-- monaco's `CompletionTriggerKind`. -/
inductive CompletionTriggerKind
  | Invoke
  | TriggerCharacter
  | TriggerForIncompleteCompletions
deriving DecidableEq, Repr

/-- monaco's `CompletionContext`: trigger kind plus optional trigger character
(a string in the monaco API, `undefined` modelled by `none`). -/
structure CompletionContext where
  triggerKind : CompletionTriggerKind
  triggerCharacter : Option String
deriving DecidableEq, Repr

/-- monaco's `CompletionItemKind`, restricted to the member the source uses. -/
inductive CompletionItemKind
  | Property
deriving DecidableEq, Repr

/-- The `ICompletion` record produced by the core.  `label` and `insertText`
are `Option String` because `getClosingElementCompletion` can receive an
`undefined` element. -/
structure ICompletion where
  label : Option String
  kind : CompletionItemKind
  detail : String
  insertText : Option String
  documentation : String
deriving DecidableEq, Repr

/-- `INamespaceInfo` of XsdCompletion.ts.  The TS `prefix` field is modelled as
`pfx : Option String` because `namespaces.get(uri)` may be `undefined`. -/
structure INamespaceInfo where
  pfx : Option String
  path : String
deriving DecidableEq, Repr

/-- Position in a document (monaco `Position`, 1-based line and column). -/
structure TextPos where
  lineNumber : Nat
  column : Nat
deriving DecidableEq, Repr

/-- A word under the cursor as reported by the editor model. -/
structure WordAtPosition where
  word : String
deriving DecidableEq, Repr

/-- The host editor's document model (external collaborator, §6 of the spec):
the document as a list of lines plus the host's word-at-position query, which
is owned by the editor and therefore modelled as an abstract input. -/
structure TextModel where
  lines : List String
  wordAt : TextPos → Option WordAtPosition

/-- `model.getLineContent(lineNumber)` (lines are 1-based). -/
def getLineContent (m : TextModel) (pos : TextPos) : String :=
  (m.lines.get? (pos.lineNumber - 1)).getD ""

/-- `getFullText`: the whole document text. -/
def getFullText (m : TextModel) : String :=
  String.intercalate "\n" m.lines

/-- `getTextUntilPosition`: document text from (1,1) up to the cursor (the
current line is cut at the cursor column, taken on the character list). -/
def getTextUntilPosition (m : TextModel) (pos : TextPos) : String :=
  String.intercalate "\n"
    (m.lines.take (pos.lineNumber - 1) ++
      [((((m.lines.get? (pos.lineNumber - 1)).getD "").data.take
          (pos.column - 1)).asString)])

/-- One-line document model whose word-at-position query reports no word. -/
def lineModel (s : String) : TextModel :=
  ⟨[s], fun _ => none⟩

/-- Cursor position used with `lineModel` when only the line text matters. -/
def posOne : TextPos := ⟨1, 1⟩

/-- `isInsideAttributeValue`, the regex `/="[^"]+$/`: scanning from the end of
the line, at least one non-quote character, then `"`, then `=`.  `go` walks the
reversed character list counting the non-quote suffix. -/
def insideGo : List Char → Nat → Bool
  | [], _ => false
  | c :: rest, n =>
    if c = '"' then
      decide (1 ≤ n) &&
        (match rest with
         | d :: _ => decide (d = '=')
         | [] => false)
    else insideGo rest (n + 1)

/-- `isInsideAttributeValue(text)` of the source. -/
def isInsideAttributeValue (text : String) : Bool :=
  insideGo text.data.reverse 0

/-- Scanner for `/(?<=\s)[A-Za-z0-9]+/g` (`getAttributesFromText`): maximal
alphanumeric runs immediately preceded by a whitespace character.  The first
argument is fuel; every step advances the position by at least one, so
`cs.length + 1` fuel always suffices. -/
def scanAttrTokensF : Nat → List Char → Nat → List String
  | 0, _, _ => []
  | fuel + 1, cs, i =>
    if i < cs.length then
      if 1 ≤ i ∧ (charAt cs (i - 1)).any Char.isWhitespace = true then
        if 0 < runLen cs i Char.isAlphanum then
          sliceStr cs i (runLen cs i Char.isAlphanum) ::
            scanAttrTokensF fuel cs (i + runLen cs i Char.isAlphanum)
        else scanAttrTokensF fuel cs (i + 1)
      else scanAttrTokensF fuel cs (i + 1)
    else []

/-- `getAttributesFromText` of the source. -/
def getAttributesFromText (text : String) : List String :=
  scanAttrTokensF (text.data.length + 1) text.data 0

/-- `textContainsAttributes` of the source. -/
def textContainsAttributes (text : String) : Bool :=
  decide (0 < (getAttributesFromText text).length)

/-- Character class `[^?\s|/>]` of the tag regex. -/
def tagClass (c : Char) : Bool :=
  !(c = '?' || c.isWhitespace || c = '|' || c = '/' || c = '>')

/-- `.+\/>` scanned from a fixed position, continued: search for `/>` preceded
only by non-line-terminator characters. -/
def findSlashGt : List Char → Bool
  | '/' :: '>' :: _ => true
  | c :: rest => if c = '\n' ∨ c = '\r' then false else findSlashGt rest
  | [] => false

/-- Whether `.+\/>` matches at the start of `l` (the negative lookahead body of
the tag regex): at least one non-terminator character followed later by `/>`. -/
def dotPlusSlashGt : List Char → Bool
  | c :: rest => if c = '\n' ∨ c = '\r' then false else findSlashGt rest
  | [] => false

/-- Lookbehind `(?<=<|<\/)` of the tag regex at index `i`. -/
def tagLookbehind (cs : List Char) (i : Nat) : Bool :=
  (decide (1 ≤ i) && decide (charAt cs (i - 1) = some '<')) ||
    (decide (2 ≤ i) && decide (charAt cs (i - 1) = some '/') &&
      decide (charAt cs (i - 2) = some '<'))

/-- Scanner for `/(?<=<|<\/)[^?\s|/>]+(?!.+\/>)/g` (`getTagsFromText`).
A failed negative lookahead at the greedy run end also fails for every shorter
run (the shrunk-away characters are non-terminators and the found `/>` stays in
range), so the engine abandons the position and advances by one.  Fuelled;
`cs.length + 1` fuel always suffices. -/
def scanTagsF : Nat → List Char → Nat → List String
  | 0, _, _ => []
  | fuel + 1, cs, i =>
    if i < cs.length then
      if tagLookbehind cs i then
        if 0 < runLen cs i tagClass then
          if dotPlusSlashGt (cs.drop (i + runLen cs i tagClass)) then
            scanTagsF fuel cs (i + 1)
          else
            sliceStr cs i (runLen cs i tagClass) ::
              scanTagsF fuel cs (i + runLen cs i tagClass)
        else scanTagsF fuel cs (i + 1)
      else scanTagsF fuel cs (i + 1)
    else []

/-- `getTagsFromText` of the source (empty list models "no match"). -/
def getTagsFromText (text : String) : List String :=
  scanTagsF (text.data.length + 1) text.data 0

/-- `textContainsTags` of the source. -/
def textContainsTags (text : String) : Bool :=
  decide (0 < (getTagsFromText text).length)

/-- `getCompletionTypeForIncompleteCompletion` of the source. -/
def getCompletionTypeForIncompleteCompletion (text : String) : CompletionType :=
  if textContainsAttributes text then CompletionType.incompleteAttribute
  else if textContainsTags text then CompletionType.incompleteElement
  else CompletionType.snippet

/-- `getCompletionTypeByTriggerCharacter` of the source. -/
def getCompletionTypeByTriggerCharacter (triggerCharacter : Option String) :
    CompletionType :=
  match triggerCharacter with
  | some "<" => CompletionType.element
  | some " " => CompletionType.attribute
  | some "/" => CompletionType.closingElement
  | _ => CompletionType.none

/-- `getCompletionType` of the source: the full current line is fetched, the
open-attribute-value check runs first, then dispatch on the trigger kind. -/
def getCompletionType (model : TextModel) (pos : TextPos)
    (context : CompletionContext) : CompletionType :=
  let wordsBeforePosition := getLineContent model pos
  if isInsideAttributeValue wordsBeforePosition then CompletionType.none
  else
    match context.triggerKind with
    | CompletionTriggerKind.Invoke =>
        getCompletionTypeForIncompleteCompletion wordsBeforePosition
    | CompletionTriggerKind.TriggerForIncompleteCompletions =>
        getCompletionTypeForIncompleteCompletion wordsBeforePosition
    | CompletionTriggerKind.TriggerCharacter =>
        getCompletionTypeByTriggerCharacter context.triggerCharacter

/-- The body of the `while`/`pop` loop of `getUnclosedTags`, acting on the
reversed stack (top first): drop entries until the matching tag is found, and
drop it too. -/
def dropThroughRev : List String → String → List String
  | [], _ => []
  | x :: xs, tag => if x = tag then xs else dropThroughRev xs tag

/-- One step of `getUnclosedTags`: a tag already on the stack pops entries from
the top through and including its occurrence, any other tag is pushed. -/
def tagStackStep (parentTags : List String) (tag : String) : List String :=
  if tag ∈ parentTags then (dropThroughRev parentTags.reverse tag).reverse
  else parentTags ++ [tag]

/-- `getUnclosedTags` of the source. -/
def getUnclosedTags (text : String) : List String :=
  (getTagsFromText text).foldl tagStackStep []

/-- `wordAtPositionIsEqualToLastUnclosedTag` of the source (comparison with
`undefined` is false). -/
def wordAtPositionIsEqualToLastUnclosedTag (wordAtPosition : Option WordAtPosition)
    (unclosedTags : List String) : Bool :=
  match wordAtPosition with
  | some w => decide (some w.word = jsIdx unclosedTags ((unclosedTags.length : Int) - 1))
  | none => false

/-- `getParentTag` of the source; the result is `none` when the JS code reads
`undefined` out of the unclosed-tag array. -/
def getParentTag (model : TextModel) (pos : TextPos) : Option String :=
  let textUntilPosition := getTextUntilPosition model pos
  let unclosedTags := getUnclosedTags textUntilPosition
  let wordAtPosition := model.wordAt pos
  if wordAtPositionIsEqualToLastUnclosedTag wordAtPosition unclosedTags then
    jsIdx unclosedTags ((unclosedTags.length : Int) - 2)
  else
    let tagsInLine := getTagsFromText (getLineContent model pos)
    if 0 < tagsInLine.length then
      let lastTagInLine := (tagsInLine.getLast?).getD ""
      match wordAtPosition, (jsSplit lastTagInLine ":").get? 1 with
      | some w, some lastTagInlineWithoutNamespace =>
          if lastTagInlineWithoutNamespace ≠ "" ∧
              lastTagInlineWithoutNamespace = w.word then
            jsIdx unclosedTags ((unclosedTags.length : Int) - 2)
          else jsIdx unclosedTags ((unclosedTags.length : Int) - 1)
      | _, _ => jsIdx unclosedTags ((unclosedTags.length : Int) - 1)
    else jsIdx unclosedTags ((unclosedTags.length : Int) - 1)

/-- `getClosingElementCompletion` of the source: always a one-element list,
even when the element is `undefined` (the JS template then renders the word
"undefined" into the documentation). -/
def getClosingElementCompletion (element : Option String) : List ICompletion :=
  [{ label := element
     kind := CompletionItemKind.Property
     detail := "Close tag"
     insertText := element
     documentation :=
       "Closes the unclosed " ++ jsTemplate element ++ " tag in this file." }]

/-- Character class `[^:\s|/>]` of the prefixed-xmlns regex. -/
def nsClass1 (c : Char) : Bool :=
  !(c = ':' || c.isWhitespace || c = '|' || c = '/' || c = '>')

/-- Character class `[^\s|>]` of the namespace-URI part. -/
def nsClass2 (c : Char) : Bool :=
  !(c.isWhitespace || c = '|' || c = '>')

/-- Largest index `e` with `lo ≤ e < hi` and a `"` at `e` (the backtracking of
a greedy run over a class containing `"` followed by the lookahead `(?=")`). -/
def lastQuoteIn (cs : List Char) (lo hi : Nat) : Option Nat :=
  (((List.range' lo (hi - lo)).filter
      (fun e => decide (charAt cs e = some '"'))).getLast?)

/-- Given a `="` whose `=` sits at index `j`, the end of a match of
`[^\s|>]+(?=")` starting at `j+2`, if any. -/
def uriEndFrom (cs : List Char) (j : Nat) : Option Nat :=
  lastQuoteIn cs (j + 3) (j + 2 + runLen cs (j + 2) nsClass2)

/-- Backtracking search of `[^:\s|/>]+="[^\s|>]+(?=")` at index `i`: the
greedy first run is shrunk from the right to each candidate `="`, preferring
the longest, and the URI part is matched after it.  Returns the match end. -/
def nsFindMatch (cs : List Char) (i : Nat) : Option Nat :=
  (((List.range' (i + 1) (runLen cs i nsClass1 - 1)).filter
      (fun j => decide (charAt cs j = some '=') &&
        decide (charAt cs (j + 1) = some '"'))).reverse).findSome?
    (fun j => uriEndFrom cs j)

/-- Scanner for `/(?<=xmlns:)(?!xsi|html)[^:\s|/>]+="[^\s|>]+(?=")/g`
(the prefixed namespace declarations of `getNamespaces`).  Fuelled; every
match end lies strictly beyond `i`, so `cs.length + 1` fuel always suffices. -/
def scanXmlnsF : Nat → List Char → Nat → List String
  | 0, _, _ => []
  | fuel + 1, cs, i =>
    if i < cs.length then
      if 6 ≤ i && sliceEq cs (i - 6) "xmlns:".data &&
          !(sliceEq cs i "xsi".data) && !(sliceEq cs i "html".data) then
        match nsFindMatch cs i with
        | some e => sliceStr cs i (e - i) :: scanXmlnsF fuel cs e
        | none => scanXmlnsF fuel cs (i + 1)
      else scanXmlnsF fuel cs (i + 1)
    else []

/-- Scanner for `/(?<=xmlns=")[^\s|>]+(?=")/g` (the default namespace
declaration of `getNamespaces`).  Fuelled. -/
def scanXmlnsDefaultF : Nat → List Char → Nat → List String
  | 0, _, _ => []
  | fuel + 1, cs, i =>
    if i < cs.length then
      if 7 ≤ i && sliceEq cs (i - 7) "xmlns=\"".data then
        match lastQuoteIn cs (i + 1) (i + runLen cs i nsClass2) with
        | some e => sliceStr cs i (e - i) :: scanXmlnsDefaultF fuel cs e
        | none => scanXmlnsDefaultF fuel cs (i + 1)
      else scanXmlnsDefaultF fuel cs (i + 1)
    else []

/-- Character class `[^"|>]` of the schema-location regexes. -/
def slClass (c : Char) : Bool :=
  !(c = '"' || c = '|' || c = '>')

/-- Length of the maximal whitespace run ending just before index `p`. -/
def wsBackLen (cs : List Char) : Nat → Nat
  | 0 => 0
  | p + 1 =>
    if (charAt cs p).any Char.isWhitespace then wsBackLen cs p + 1 else 0

/-- Lookbehind `(?<=(lit\n?\s*"))` at index `i` (the optional `\n` is itself
whitespace, so it is absorbed by the `\s*` walk). -/
def slLookbehind (cs : List Char) (lit : List Char) (i : Nat) : Bool :=
  decide (1 ≤ i) && decide (charAt cs (i - 1) = some '"') &&
    (let q := i - 1 - wsBackLen cs (i - 1)
     decide (lit.length ≤ q) && sliceEq cs (q - lit.length) lit)

/-- Scanner for `/(?<=(lit\n?\s*"))[^"|>]+(?=")/g`, shared by the two
schema-location regexes (`lit` is the attribute-name literal including `=`).
Fuelled; `cs.length + 1` fuel always suffices. -/
def scanSchemaLocF (lit : List Char) : Nat → List Char → Nat → List String
  | 0, _, _ => []
  | fuel + 1, cs, i =>
    if i < cs.length then
      if slLookbehind cs lit i then
        if 0 < runLen cs i slClass then
          if charAt cs (i + runLen cs i slClass) = some '"' then
            sliceStr cs i (runLen cs i slClass) ::
              scanSchemaLocF lit fuel cs (i + runLen cs i slClass)
          else scanSchemaLocF lit fuel cs (i + 1)
        else scanSchemaLocF lit fuel cs (i + 1)
      else scanSchemaLocF lit fuel cs (i + 1)
    else []

/-- JS `split(/\s+/)`: pieces between maximal whitespace runs, keeping an
empty leading or trailing piece when the string starts or ends with whitespace.
Fuelled; every step consumes at least one character. -/
def splitWsGoF : Nat → List Char → List Char → List String
  | 0, _, acc => [acc.reverse.asString]
  | _ + 1, [], acc => [acc.reverse.asString]
  | fuel + 1, c :: rest, acc =>
    if c.isWhitespace then
      acc.reverse.asString :: splitWsGoF fuel (rest.dropWhile Char.isWhitespace) []
    else splitWsGoF fuel rest (c :: acc)

/-- JS `String.prototype.split(/\s+/)`. -/
def splitWs (s : String) : List String :=
  splitWsGoF (s.data.length + 1) s.data []

/-- `getNamespaces` of the source: a map from namespace URI to declared
prefix ("" for the default declaration). -/
def getNamespaces (text : String) : List (String × String) :=
  let m1 := (scanXmlnsF (text.data.length + 1) text.data 0).foldl
    (fun namespaceMap s =>
      match jsSplit s "=\"" with
      | p0 :: p1 :: _ => mapSet namespaceMap p1 p0
      | _ => namespaceMap) []
  (scanXmlnsDefaultF (text.data.length + 1) text.data 0).foldl
    (fun namespaceMap s => mapSet namespaceMap s "") m1

/-- `getNamespacesSchemaLocations` of the source: a map from schema path to
namespace URI (`file://`-prefixed synthetic URI for
`xsi:noNamespaceSchemaLocation`). -/
def getNamespacesSchemaLocations (text : String) : List (String × String) :=
  let m1 := (scanSchemaLocF "xsi:schemaLocation=".data (text.data.length + 1)
      text.data 0).foldl
    (fun acc s =>
      let pieces := splitWs s
      (pieces.enum).foldl
        (fun acc2 p =>
          if p.1 % 2 = 1 then
            mapSet acc2 p.2 ((pieces.get? (p.1 - 1)).getD "")
          else acc2) acc) []
  (scanSchemaLocF "xsi:noNamespaceSchemaLocation=".data (text.data.length + 1)
      text.data 0).foldl
    (fun acc s => mapSet acc s ("file://" ++ s)) m1

/-- `matchNamespacesAndNamespaceSchemaLocations` of the source: for every
(path, uri) entry of the schema-location map, store
`{prefix := namespaces.get(uri), path}` under the key `uri`. -/
def matchNamespacesAndNamespaceSchemaLocations
    (namespaces : List (String × String))
    (namespaceSchemaLocations : List (String × String)) :
    List (String × INamespaceInfo) :=
  namespaceSchemaLocations.foldl
    (fun acc p =>
      mapSet acc p.2 { pfx := mapGet namespaces p.2, path := p.1 }) []

/-- `getXsdNamespaces` of the source. -/
def getXsdNamespaces (model : TextModel) : List (String × INamespaceInfo) :=
  let text := getFullText model
  matchNamespacesAndNamespaceSchemaLocations (getNamespaces text)
    (getNamespacesSchemaLocations text)

/-- `getCompletionNamespace` of the source: the prefix segment of the last tag
token on the current line, or "". -/
def getCompletionNamespace (model : TextModel) (pos : TextPos) : String :=
  let tagsInLine := getTagsFromText (getLineContent model pos)
  if 0 < tagsInLine.length then
    let tagParts := jsSplit ((tagsInLine.getLast?).getD "") ":"
    if 1 < tagParts.length then (tagParts.get? 0).getD "" else ""
  else ""

/-- `getTagWithoutNamespace` of the source. -/
def getTagWithoutNamespace (tag : String) : String :=
  ((jsSplit tag ":").getLast?).getD ""

/-- Modelled from the spec: `XsdWorker` (src/XsdWorker.ts is not part of the
given sources).  Per §2/§6 a worker is an opaque schema source identified by a
path, carrying the namespace it was bound to by `withNamespace`, and answering
`doCompletion` queries; the completion behaviour itself is an abstract field. -/
structure XsdWorker where
  path : String
  boundNamespace : Option String := none
  doCompletion : CompletionType → Option String → List ICompletion

/-- Modelled from the spec: `withNamespace` binds the worker to a prefix and
returns it. -/
def XsdWorker.withNamespace (w : XsdWorker) (ns : Option String) : XsdWorker :=
  { w with boundNamespace := ns }

/-- `XsdManager` of src/XsdManager.ts: a map from schema path to worker. -/
structure XsdManager where
  xsdWorkers : List (String × XsdWorker)

/-- `XsdManager.get` of the source. -/
def XsdManager.get (m : XsdManager) (path : String) : Option XsdWorker :=
  mapGet m.xsdWorkers path

/-- `XsdManager.has` of the source. -/
def XsdManager.has (m : XsdManager) (path : String) : Bool :=
  (mapGet m.xsdWorkers path).isSome

/-- `getXsdWorkersForNamespace` of the source.  The JS truthiness test
`if (namespace)` is nonemptiness of the string; the `namespace === undefined`
disjunct of the else-branch is unrepresentable because the keys of the matched
map are strings. -/
def getXsdWorkersForNamespace (mgr : XsdManager)
    (namespaces : List (String × INamespaceInfo)) (ns : String) :
    List XsdWorker :=
  if ns ≠ "" then
    match mapGet namespaces ns with
    | some namespaceInfo =>
      match mgr.get namespaceInfo.path with
      | some w => [w.withNamespace (some ns)]
      | none => []
    | none => []
  else
    namespaces.foldl
      (fun xsdWorkers p =>
        if mgr.has p.2.path || decide (p.1 = "") then
          match mgr.get p.2.path with
          | some w => xsdWorkers ++ [w.withNamespace p.2.pfx]
          | none => xsdWorkers
        else xsdWorkers) []

/-- `getCompletions` of the source: classification, early exits for `none` and
`closingElement`, then namespace resolution and the merge of `doCompletion`
results across the selected workers. -/
def getCompletions (mgr : XsdManager) (model : TextModel) (pos : TextPos)
    (context : CompletionContext) : List ICompletion :=
  let completionType := getCompletionType model pos context
  if completionType = CompletionType.none then []
  else if completionType = CompletionType.closingElement then
    getClosingElementCompletion (getParentTag model pos)
  else
    let namespaces := getXsdNamespaces model
    let completionNamespace := getCompletionNamespace model pos
    let xsdWorkers := getXsdWorkersForNamespace mgr namespaces completionNamespace
    let parentTag := (getParentTag model pos).map getTagWithoutNamespace
    xsdWorkers.foldl
      (fun completions w => completions ++ w.doCompletion completionType parentTag) []

/-- A suggestion record as fetched from the schema provider; only identity
matters to the cache claims. -/
structure DocumentNode where
  name : String
deriving DecidableEq, Repr

/-- The external Schema Provider interface (§6): pure, repeatable queries. -/
structure XsdParser where
  getRootElements : List DocumentNode
  getSubElements : String → List DocumentNode
  getAttributesForElement : String → List DocumentNode

/-- A provider fetch, logged so that theorems can count invocations. -/
inductive Fetch
  | root
  | sub (parentElement : String)
  | attr (element : String)
deriving DecidableEq, Repr

/-- `CodeSuggestionCache` of the source: one shared `nodeMap` name index and
two sparse collections addressed by the (possibly -1) index from `indexOf`. -/
structure CodeSuggestionCache where
  xsd : XsdParser
  nodeMap : List String := []
  elementCollections : List (Int × List DocumentNode) := []
  attributeCollections : List (Int × List DocumentNode) := []

namespace CodeSuggestionCache

/-- `getIndexForNode`: `nodeMap.indexOf(node)` (first occurrence, -1 if absent). -/
def getIndexForNode (c : CodeSuggestionCache) (node : String) : Int :=
  match c.nodeMap.findIdx? (fun s => s == node) with
  | some i => (i : Int)
  | none => -1

/-- `getElementCollection`; `none` models the `undefined` of a sparse read. -/
def getElementCollection (c : CodeSuggestionCache) (element : String) :
    Option (List DocumentNode) :=
  mapGet c.elementCollections (getIndexForNode c element)

/-- `getAttributeCollection`. -/
def getAttributeCollection (c : CodeSuggestionCache) (element : String) :
    Option (List DocumentNode) :=
  mapGet c.attributeCollections (getIndexForNode c element)

/-- `setElementCollection`: push the name, write the collection at the
(re-computed first-occurrence) index, and return the re-read value. -/
def setElementCollection (c : CodeSuggestionCache) (element : String)
    (documentElement : List DocumentNode) :
    Option (List DocumentNode) × CodeSuggestionCache :=
  let c1 := { c with nodeMap := c.nodeMap ++ [element] }
  let c2 := { c1 with
    elementCollections :=
      mapSet c1.elementCollections (getIndexForNode c1 element) documentElement }
  (getElementCollection c2 element, c2)

/-- `setAttributeCollection` (pushes into the same shared `nodeMap`). -/
def setAttributeCollection (c : CodeSuggestionCache) (element : String)
    (documentAttribute : List DocumentNode) :
    Option (List DocumentNode) × CodeSuggestionCache :=
  let c1 := { c with nodeMap := c.nodeMap ++ [element] }
  let c2 := { c1 with
    attributeCollections :=
      mapSet c1.attributeCollections (getIndexForNode c1 element) documentAttribute }
  (getAttributeCollection c2 element, c2)

/-- `getRootElements`: fetch from the provider and store. -/
def getRootElements (c : CodeSuggestionCache) :
    Option (List DocumentNode) × CodeSuggestionCache × List Fetch :=
  let r := setElementCollection c "rootElements" c.xsd.getRootElements
  (r.1, r.2, [Fetch.root])

/-- `rootElements`: cached value under the literal key "rootElements", else
fetch (a stored empty array is a JS-truthy cache hit, hence the `Option`). -/
def rootElements (c : CodeSuggestionCache) :
    Option (List DocumentNode) × CodeSuggestionCache × List Fetch :=
  match getElementCollection c "rootElements" with
  | some v => (some v, c, [])
  | none => getRootElements c

/-- `getSubElements`: fetch from the provider and store. -/
def getSubElements (c : CodeSuggestionCache) (parentElement : String) :
    Option (List DocumentNode) × CodeSuggestionCache × List Fetch :=
  let r := setElementCollection c parentElement (c.xsd.getSubElements parentElement)
  (r.1, r.2, [Fetch.sub parentElement])

/-- `subElements`: cached value, else fetch. -/
def subElements (c : CodeSuggestionCache) (parentElement : String) :
    Option (List DocumentNode) × CodeSuggestionCache × List Fetch :=
  match getElementCollection c parentElement with
  | some v => (some v, c, [])
  | none => getSubElements c parentElement

/-- `elements` of the source: absent parent (JS `undefined`) means root. -/
def elements (c : CodeSuggestionCache) (parentElement : Option String) :
    Option (List DocumentNode) × CodeSuggestionCache × List Fetch :=
  match parentElement with
  | none => rootElements c
  | some p => subElements c p

/-- `getAttributes`: fetch from the provider and store. -/
def getAttributes (c : CodeSuggestionCache) (element : String) :
    Option (List DocumentNode) × CodeSuggestionCache × List Fetch :=
  let r := setAttributeCollection c element (c.xsd.getAttributesForElement element)
  (r.1, r.2, [Fetch.attr element])

/-- `attributes` of the source: cached value, else fetch. -/
def attributes (c : CodeSuggestionCache) (element : String) :
    Option (List DocumentNode) × CodeSuggestionCache × List Fetch :=
  match getAttributeCollection c element with
  | some v => (some v, c, [])
  | none => getAttributes c element

end CodeSuggestionCache

/-! ## Specification-side predicates and concrete instances used by the claims -/

/-- Specification-side reading of one attribute-name token position: a
whitespace character at index `k` immediately followed by an alphanumeric
character.  (`getAttributesFromText` finds a token iff some such pair exists.) -/
def pairAt (cs : List Char) (k : Nat) : Bool :=
  (charAt cs k).any Char.isWhitespace && (charAt cs (k + 1)).any Char.isAlphanum

/-- The example document of the namespace claims. -/
def exampleDocC1 : String :=
  "<root xmlns:ns=\"http://example/ns\" xsi:schemaLocation=\"http://example/ns schema/a.xsd\">"

/-- One-line document model around `exampleDocC1`. -/
def exampleModelC1 : TextModel := lineModel exampleDocC1

/-- A stub schema worker (its completion behaviour is irrelevant here). -/
def wStub : XsdWorker :=
  { path := "schema/a.xsd", doCompletion := fun _ _ => [] }

/-- Binding map as built from `exampleDocC1`: keyed by namespace URI. -/
def c2Bindings : List (String × INamespaceInfo) :=
  [("http://example/ns", { pfx := some "ns", path := "schema/a.xsd" })]

/-- Binding map whose key happens to equal the requested prefix. -/
def c2BindingsKeyed : List (String × INamespaceInfo) :=
  [("ns", { pfx := some "ns", path := "schema/a.xsd" })]

/-- Manager with the schema path of `c2Bindings` loaded. -/
def c2Manager : XsdManager := ⟨[("schema/a.xsd", wStub)]⟩

/-- Manager with no schema loaded. -/
def mgrEmpty : XsdManager := ⟨[]⟩

/-- Document consisting only of an opened closing tag: the unclosed-tag stack
at the cursor is empty. -/
def c8Model : TextModel := ⟨["</"], fun _ => none⟩

/-- Cursor right after the `</`. -/
def c8Pos : TextPos := ⟨1, 3⟩

/-- Completion request triggered by the `/` character. -/
def c8Ctx : CompletionContext :=
  ⟨CompletionTriggerKind.TriggerCharacter, some "/"⟩

/-- A stub schema provider whose fetches are observable through the fetch log. -/
def stubXsd : XsdParser :=
  { getRootElements := [{ name := "book" }]
    getSubElements := fun _ => [{ name := "chapter" }]
    getAttributesForElement := fun _ => [{ name := "id" }] }

/-- A freshly constructed cache over `stubXsd`. -/
def freshCache : CodeSuggestionCache := { xsd := stubXsd }

/-! ## Helper lemmas -/

/-- Setting a key in a JS map makes it readable back. -/
theorem mapGet_mapSet_self {α β : Type} [DecidableEq α] (m : List (α × β))
    (k : α) (v : β) : mapGet (mapSet m k v) k = some v := by
  induction m with
  | nil => simp [mapSet, mapGet]
  | cons p rest ih =>
    by_cases h : p.1 = k
    · simp [mapSet, h, mapGet]
    · simp only [mapSet, if_neg h, mapGet] at ih ⊢
      rw [List.find?_cons_of_neg _ (by simp [h])]
      exact ih

/-- Decomposition produced by a `dropThroughRev` pass over a list containing
the sought tag: everything before the first occurrence is dropped. -/
theorem dropThroughRevSpec :
    ∀ (l : List String) (t : String), t ∈ l →
      ∃ a b, l = a ++ t :: b ∧ t ∉ a ∧ dropThroughRev l t = b := by
  intro l
  induction l with
  | nil => intro t h; simp at h
  | cons x xs ih =>
    intro t h
    by_cases hx : x = t
    · subst hx
      exact ⟨[], xs, rfl, by simp, by simp [dropThroughRev]⟩
    · have hm : t ∈ xs := by
        rcases List.mem_cons.mp h with h1 | h1
        · exact absurd h1.symm hx
        · exact h1
      obtain ⟨a, b, he, hna, hd⟩ := ih t hm
      refine ⟨x :: a, b, by simp [he], ?_, by simp [dropThroughRev, hx, hd]⟩
      intro hc
      rcases List.mem_cons.mp hc with h1 | h1
      · exact hx h1.symm
      · exact hna h1

/-- A tag already on the stack pops entries from the end through and including
its matching occurrence (the last occurrence, i.e. the first one seen from the
top of the stack); what remains is exactly the prefix below it. -/
theorem tagStackStepMem (s : List String) (t : String) (h : t ∈ s) :
    ∃ pre suf, s = pre ++ t :: suf ∧ t ∉ suf ∧ tagStackStep s t = pre := by
  have hrev : t ∈ s.reverse := List.mem_reverse.mpr h
  obtain ⟨a, b, he, hna, hd⟩ := dropThroughRevSpec s.reverse t hrev
  refine ⟨b.reverse, a.reverse, ?_, ?_, ?_⟩
  · have : s.reverse.reverse = (a ++ t :: b).reverse := by rw [he]
    simpa using this
  · simpa using hna
  · simp [tagStackStep, h, hd]

/-- One stack step preserves distinctness of the stack entries. -/
theorem tagStackStepNodup (s : List String) (t : String) (h : s.Nodup) :
    (tagStackStep s t).Nodup := by
  by_cases hm : t ∈ s
  · obtain ⟨pre, suf, he, _, hstep⟩ := tagStackStepMem s t hm
    rw [hstep]
    subst he
    exact ((List.sublist_append_left pre (t :: suf)).nodup h)
  · simp only [tagStackStep, if_neg hm]
    simp [List.nodup_append, h, hm]

/-- Folding stack steps from a distinct stack keeps it distinct. -/
theorem foldlStackNodup :
    ∀ (tags : List String) (s : List String), s.Nodup →
      (tags.foldl tagStackStep s).Nodup := by
  intro tags
  induction tags with
  | nil => intro s hs; simpa using hs
  | cons a l ih => intro s hs; exact ih _ (tagStackStepNodup s a hs)

/-- A run is nonempty exactly when the character at its start satisfies the
class. -/
theorem runLenPos (cs : List Char) (i : Nat) (p : Char → Bool) :
    0 < runLen cs i p ↔ (charAt cs i).any p = true := by
  induction i generalizing cs with
  | zero =>
    cases cs with
    | nil => simp [runLen, charAt]
    | cons c tl =>
      by_cases hp : p c <;> simp [runLen, charAt, List.takeWhile_cons, hp]
  | succ n ih =>
    cases cs with
    | nil => simp [runLen, charAt]
    | cons c tl => simpa [runLen, charAt] using ih tl

/-- No whitespace–alphanumeric pair can start at or after the end of input. -/
theorem noPairFrom (cs : List Char) (i : Nat) (hge : ¬ i < cs.length) :
    ¬ ∃ k, i ≤ k + 1 ∧ pairAt cs k = true := by
  rintro ⟨k, hk, hp⟩
  have hnone : charAt cs (k + 1) = none := by
    rw [charAt, List.get?_eq_none]
    omega
  rw [pairAt, hnone] at hp
  simp at hp

/-- The attribute-token scanner from position `i` finds a token exactly when a
whitespace–alphanumeric pair starts at some index `k` with `i ≤ k + 1`. -/
theorem scanAttrNeNilAux :
    ∀ (fuel : Nat) (cs : List Char) (i : Nat), cs.length - i < fuel →
      (scanAttrTokensF fuel cs i ≠ [] ↔ ∃ k, i ≤ k + 1 ∧ pairAt cs k = true) := by
  intro fuel
  induction fuel with
  | zero =>
    intro cs i hle
    omega
  | succ n ih =>
    intro cs i hle
    by_cases hlt : i < cs.length
    · have hrec1 : cs.length - (i + 1) < n := by omega
      by_cases hlb : 1 ≤ i ∧ (charAt cs (i - 1)).any Char.isWhitespace = true
      · by_cases hlen : 0 < runLen cs i Char.isAlphanum
        · simp only [scanAttrTokensF]
          rw [if_pos hlt, if_pos hlb, if_pos hlen]
          constructor
          · intro _
            refine ⟨i - 1, by omega, ?_⟩
            have halnum : (charAt cs i).any Char.isAlphanum = true :=
              (runLenPos cs i _).mp hlen
            have hsub : i - 1 + 1 = i := by omega
            rw [pairAt, hsub, halnum, hlb.2]
            rfl
          · intro _; simp
        · simp only [scanAttrTokensF]
          rw [if_pos hlt, if_pos hlb, if_neg hlen]
          rw [ih cs (i + 1) hrec1]
          constructor
          · rintro ⟨k, hk, hp⟩; exact ⟨k, by omega, hp⟩
          · rintro ⟨k, hk, hp⟩
            by_cases hki : k + 1 = i
            · exfalso
              rw [pairAt, Bool.and_eq_true] at hp
              have : 0 < runLen cs i Char.isAlphanum :=
                (runLenPos cs i _).mpr (by rw [← hki]; exact hp.2)
              exact hlen this
            · exact ⟨k, by omega, hp⟩
      · simp only [scanAttrTokensF]
        rw [if_pos hlt, if_neg hlb]
        rw [ih cs (i + 1) hrec1]
        constructor
        · rintro ⟨k, hk, hp⟩; exact ⟨k, by omega, hp⟩
        · rintro ⟨k, hk, hp⟩
          by_cases hki : k + 1 = i
          · exfalso
            rw [pairAt, Bool.and_eq_true] at hp
            refine hlb ⟨by omega, ?_⟩
            rw [show i - 1 = k by omega]
            exact hp.1
          · exact ⟨k, by omega, hp⟩
    · simp only [scanAttrTokensF]
      rw [if_neg hlt]
      constructor
      · intro hne; exact absurd rfl hne
      · intro hex; exact absurd hex (noPairFrom cs i hlt)

/-- `getAttributesFromText` finds a token exactly when the line contains an
alphanumeric character immediately preceded by whitespace. -/
theorem getAttrTokensNeNilIff (text : String) :
    getAttributesFromText text ≠ [] ↔ ∃ k, pairAt text.data k = true := by
  rw [getAttributesFromText,
    scanAttrNeNilAux (text.data.length + 1) text.data 0 (by omega)]
  constructor
  · rintro ⟨k, _, hp⟩; exact ⟨k, hp⟩
  · rintro ⟨k, hp⟩; exact ⟨k, by omega, hp⟩

/-- Walking `insideGo` over a quote-free prefix ending in `"` then `=` yields
a match exactly when at least one character was accumulated. -/
theorem insideGoAppend (r : List Char) :
    ∀ l : List Char, (∀ ch ∈ l, ch ≠ '"') → ∀ n : Nat,
      insideGo (l ++ '"' :: '=' :: r) n = decide (1 ≤ n + l.length) := by
  intro l
  induction l with
  | nil =>
    intro _ n
    simp [insideGo]
  | cons ch l ih =>
    intro h n
    have hch : ch ≠ '"' := h ch (List.mem_cons_self ch l)
    have hstep : insideGo (ch :: (l ++ '"' :: '=' :: r)) n =
        insideGo (l ++ '"' :: '=' :: r) (n + 1) := by
      simp [insideGo, hch]
    rw [List.cons_append, hstep,
      ih (fun c hc => h c (List.mem_cons_of_mem ch hc)) (n + 1)]
    have h1 : 1 ≤ n + 1 + l.length := by omega
    have h2 : 1 ≤ n + (l.length + 1) := by omega
    simp [h1, h2]

/-- A line of the shape `a ++ "=\"" ++ b` with `b` nonempty and quote-free is
inside an open attribute value. -/
theorem isInsideOpenValue (a b : String) (hb : b ≠ "")
    (hq : ∀ ch ∈ b.data, ch ≠ '"') :
    isInsideAttributeValue (a ++ "=\"" ++ b) = true := by
  rw [isInsideAttributeValue]
  have hdata : (a ++ "=\"" ++ b).data = (a.data ++ ['=', '"']) ++ b.data := by
    rw [String.data_append, String.data_append]
  rw [hdata]
  have hrev : ((a.data ++ ['=', '"']) ++ b.data).reverse =
      b.data.reverse ++ '"' :: '=' :: a.data.reverse := by
    simp
  rw [hrev,
    insideGoAppend a.data.reverse b.data.reverse
      (fun c hc => hq c (List.mem_reverse.mp hc)) 0]
  have hne : b.data ≠ [] := by
    intro hn
    exact hb (String.ext hn)
  have hlen : 0 < b.data.length := List.length_pos.mpr hne
  have hgoal : (1 : Nat) ≤ 0 + b.data.reverse.length := by
    rw [List.length_reverse]
    omega
  exact decide_eq_true hgoal

/-- After `setElementCollection` the stored collection is readable back under
its element name: the write and the re-read use the same first-occurrence
index in the updated `nodeMap`. -/
theorem getElementCollection_set (c : CodeSuggestionCache) (el : String)
    (docs : List DocumentNode) :
    CodeSuggestionCache.getElementCollection
      (CodeSuggestionCache.setElementCollection c el docs).2 el = some docs := by
  simp only [CodeSuggestionCache.setElementCollection,
    CodeSuggestionCache.getElementCollection]
  exact mapGet_mapSet_self _ _ _

/-- The value returned by `setElementCollection` is the stored collection. -/
theorem setElementCollection_fst (c : CodeSuggestionCache) (el : String)
    (docs : List DocumentNode) :
    (CodeSuggestionCache.setElementCollection c el docs).1 = some docs :=
  getElementCollection_set c el docs

/-- After `setAttributeCollection` the stored collection is readable back. -/
theorem getAttributeCollection_set (c : CodeSuggestionCache) (el : String)
    (docs : List DocumentNode) :
    CodeSuggestionCache.getAttributeCollection
      (CodeSuggestionCache.setAttributeCollection c el docs).2 el = some docs := by
  simp only [CodeSuggestionCache.setAttributeCollection,
    CodeSuggestionCache.getAttributeCollection]
  exact mapGet_mapSet_self _ _ _

/-- The value returned by `setAttributeCollection` is the stored collection. -/
theorem setAttributeCollection_fst (c : CodeSuggestionCache) (el : String)
    (docs : List DocumentNode) :
    (CodeSuggestionCache.setAttributeCollection c el docs).1 = some docs :=
  getAttributeCollection_set c el docs

/-! ## Claims -/

/-- C1 (counterexample): the map returned by the namespaces operation for the
example document has NO entry under the key "schema/a.xsd" — contrary to the
claim, it is not keyed by schema path. -/
theorem namespacesKeyedByPathCounterexample :
    mapGet (getXsdNamespaces exampleModelC1) "schema/a.xsd" = none := by rfl

/-- C1 (amended): the namespaces operation returns the map keyed by namespace
URI, not by schema path: for the example document the binding
`{prefix := "ns", path := "schema/a.xsd"}` is stored under the key
"http://example/ns". -/
theorem namespacesKeyedByUri :
    mapGet (getXsdNamespaces exampleModelC1) "http://example/ns" =
      some { pfx := some "ns", path := "schema/a.xsd" } := by rfl

/-- C2 (counterexample): the binding map of the example document contains a
binding whose prefix field is "ns" and whose path is loaded in the manager,
yet `getXsdWorkersForNamespace` with requested prefix "ns" returns no schema
source at all, because the lookup uses the map keys (namespace URIs), not the
prefix fields. -/
theorem activeSchemasByPrefixCounterexample :
    (c2Bindings.map (fun p => p.2.pfx)).contains (some "ns") = true ∧
    c2Manager.has "schema/a.xsd" = true ∧
    getXsdWorkersForNamespace c2Manager c2Bindings "ns" = [] := by
  refine ⟨by rfl, by rfl, by rfl⟩

/-- C2 (amended): for every binding map and non-empty requested prefix, if the
map contains an entry whose KEY equals the requested prefix and that entry's
path is loaded in the schema manager, the selection returns exactly one schema
source — the one resolved from that entry's path — bound to that prefix. -/
theorem activeSchemasKeyLookup (mgr : XsdManager)
    (bindings : List (String × INamespaceInfo)) (ns : String)
    (info : INamespaceInfo) (w : XsdWorker) (h0 : ns ≠ "")
    (h1 : mapGet bindings ns = some info) (h2 : mgr.get info.path = some w) :
    getXsdWorkersForNamespace mgr bindings ns = [w.withNamespace (some ns)] := by
  simp [getXsdWorkersForNamespace, h0, h1, h2]

/-- C2 (witness): concrete instance of the amended claim. -/
theorem activeSchemasKeyLookupWitness :
    getXsdWorkersForNamespace c2Manager c2BindingsKeyed "ns" =
      [wStub.withNamespace (some "ns")] :=
  activeSchemasKeyLookup c2Manager c2BindingsKeyed "ns"
    { pfx := some "ns", path := "schema/a.xsd" } wStub (by decide) (by rfl)
    (by rfl)

/-- C3 (counterexample): with zero characters typed after the opener `="` the
classifier does NOT return `none` — the regex `/="[^"]+$/` requires at least
one character after the opener, so a `<` trigger still yields `element`. -/
theorem insideAttrZeroCharsCounterexample :
    getCompletionType (lineModel "a=\"") posOne
      ⟨CompletionTriggerKind.TriggerCharacter, some "<"⟩ =
      CompletionType.element ∧
    CompletionType.element ≠ CompletionType.none := by
  refine ⟨by rfl, by decide⟩

/-- C3 (amended): for every line text whose suffix after some attribute-value
opener `="` consists of AT LEAST ONE character and contains no closing quote,
classify returns `none` for every trigger; completions are suppressed inside
an open attribute value only once a character has been typed after the opener. -/
theorem insideAttrValueSuppression (a b : String) (ctx : CompletionContext)
    (hb : b ≠ "") (hq : ∀ ch ∈ b.data, ch ≠ '"') :
    getCompletionType (lineModel (a ++ "=\"" ++ b)) posOne ctx =
      CompletionType.none := by
  have hin := isInsideOpenValue a b hb hq
  have hline : getLineContent (lineModel (a ++ "=\"" ++ b)) posOne =
      a ++ "=\"" ++ b := by rfl
  rw [getCompletionType, hline, hin]
  simp

/-- C3 (witness): concrete instance of the amended claim. -/
theorem insideAttrValueSuppressionWitness :
    getCompletionType (lineModel ("<x s" ++ "=\"" ++ "v")) posOne
      ⟨CompletionTriggerKind.TriggerCharacter, some "<"⟩ =
      CompletionType.none :=
  insideAttrValueSuppression "<x s" "v"
    ⟨CompletionTriggerKind.TriggerCharacter, some "<"⟩ (by decide) (by decide)

/-- C4 (counterexample): the single-character dispatch does not apply inside an
open attribute value: on the line `a="b` the trigger character `<` yields
`none`, not `element`. -/
theorem triggerCharInsideAttrCounterexample :
    getCompletionType (lineModel "a=\"b") posOne
      ⟨CompletionTriggerKind.TriggerCharacter, some "<"⟩ =
      CompletionType.none ∧
    CompletionType.none ≠ CompletionType.element := by
  refine ⟨by rfl, by decide⟩

/-- C4 (amended): for all (line, trigger) pairs where the line is not inside
an open attribute value and the trigger is a character, classify returns
`element` for `<`, `attribute` for a space, `closingElement` for `/`, and
`none` for any other trigger character. -/
theorem triggerCharacterDispatch (line tc : String)
    (h : isInsideAttributeValue line = false) :
    getCompletionType (lineModel line) posOne
      ⟨CompletionTriggerKind.TriggerCharacter, some tc⟩ =
      if tc = "<" then CompletionType.element
      else if tc = " " then CompletionType.attribute
      else if tc = "/" then CompletionType.closingElement
      else CompletionType.none := by
  have hline : getLineContent (lineModel line) posOne = line := by rfl
  rw [getCompletionType, hline, h]
  simp only [Bool.false_eq_true, if_false]
  by_cases h1 : tc = "<"
  · subst h1; rfl
  · by_cases h2 : tc = " "
    · subst h2; rfl
    · by_cases h3 : tc = "/"
      · subst h3; rfl
      · simp [getCompletionTypeByTriggerCharacter, h1, h2, h3]

/-- C4 (witness): concrete instances of the amended claim for all four cases. -/
theorem triggerCharacterDispatchWitness :
    getCompletionType (lineModel "<a") posOne
      ⟨CompletionTriggerKind.TriggerCharacter, some "<"⟩ =
      CompletionType.element ∧
    getCompletionType (lineModel "<a ") posOne
      ⟨CompletionTriggerKind.TriggerCharacter, some " "⟩ =
      CompletionType.attribute ∧
    getCompletionType (lineModel "<a></") posOne
      ⟨CompletionTriggerKind.TriggerCharacter, some "/"⟩ =
      CompletionType.closingElement ∧
    getCompletionType (lineModel "<a") posOne
      ⟨CompletionTriggerKind.TriggerCharacter, some "x"⟩ =
      CompletionType.none := by
  refine ⟨?_, ?_, ?_, ?_⟩
  · rw [triggerCharacterDispatch "<a" "<" (by rfl)]
    rfl
  · rw [triggerCharacterDispatch "<a " " " (by rfl)]
    rfl
  · rw [triggerCharacterDispatch "<a></" "/" (by rfl)]
    rfl
  · rw [triggerCharacterDispatch "<a" "x" (by rfl)]
    rfl

/-- C5: `unclosedTags` processes the tag-name tokens in document order as a
name-matched stack — a token already present pops entries from the end through
and including the matching occurrence, any other token is appended — and on
the two example documents it yields `["a"]`, discarding the dangling `c`. -/
theorem unclosedTagsStackBehaviour :
    getUnclosedTags "<a><b></b>" = ["a"] ∧
    getUnclosedTags "<a><b><c></b>" = ["a"] ∧
    (∀ (s : List String) (t : String), t ∈ s →
      ∃ pre suf, s = pre ++ t :: suf ∧ t ∉ suf ∧ tagStackStep s t = pre) ∧
    (∀ (s : List String) (t : String), t ∉ s → tagStackStep s t = s ++ [t]) ∧
    (∀ text, getUnclosedTags text = (getTagsFromText text).foldl tagStackStep []) := by
  refine ⟨by rfl, by rfl, tagStackStepMem, ?_, fun _ => rfl⟩
  intro s t h
  simp [tagStackStep, h]

/-- C5 (witness): instance of the pop behaviour on a concrete stack. -/
theorem unclosedTagsStackBehaviourWitness :
    ∃ pre suf, ["a", "b", "c"] = pre ++ "b" :: suf ∧ "b" ∉ suf ∧
      tagStackStep ["a", "b", "c"] "b" = pre :=
  unclosedTagsStackBehaviour.2.2.1 ["a", "b", "c"] "b" (by decide)

/-- C9: for every input text the stack returned by `getUnclosedTags` has
pairwise-distinct tag names — a name is appended only when absent, and a
re-occurring name removes entries instead of adding one. -/
theorem unclosedTagsNodup (text : String) : (getUnclosedTags text).Nodup :=
  foldlStackNodup (getTagsFromText text) [] (by simp)

/-- C7 (counterexample): on the line "hello world" — which contains no tag
opener and no tag-name token at all — classify under explicit invocation
returns `incompleteAttribute`, not `snippet`: the attribute-token regex only
requires an alphanumeric run preceded by whitespace, anywhere in the line. -/
theorem incompleteClassificationCounterexample :
    getCompletionType (lineModel "hello world") posOne
      ⟨CompletionTriggerKind.Invoke, none⟩ = CompletionType.incompleteAttribute ∧
    getTagsFromText "hello world" = [] ∧
    CompletionType.incompleteAttribute ≠ CompletionType.snippet := by
  refine ⟨by rfl, by rfl, by decide⟩

/-- C7 (amended): for every line not inside an open attribute value and every
non-character trigger, classify returns `incompleteAttribute` exactly when the
line contains an alphanumeric token immediately preceded by a whitespace
character (anywhere in the line, not necessarily after a tag opener);
otherwise `incompleteElement` when the line contains tag-name tokens;
otherwise `snippet`. -/
theorem incompleteClassification (line : String) (ctx : CompletionContext)
    (hk : ctx.triggerKind = CompletionTriggerKind.Invoke ∨
      ctx.triggerKind = CompletionTriggerKind.TriggerForIncompleteCompletions)
    (hin : isInsideAttributeValue line = false) :
    ((∃ k, pairAt line.data k = true) →
      getCompletionType (lineModel line) posOne ctx =
        CompletionType.incompleteAttribute) ∧
    ((¬ ∃ k, pairAt line.data k = true) → getTagsFromText line ≠ [] →
      getCompletionType (lineModel line) posOne ctx =
        CompletionType.incompleteElement) ∧
    ((¬ ∃ k, pairAt line.data k = true) → getTagsFromText line = [] →
      getCompletionType (lineModel line) posOne ctx = CompletionType.snippet) := by
  have hline : getLineContent (lineModel line) posOne = line := by rfl
  have hred : getCompletionType (lineModel line) posOne ctx =
      getCompletionTypeForIncompleteCompletion line := by
    obtain ⟨tk, tc⟩ := ctx
    simp only at hk
    rcases hk with h | h <;> subst h <;>
      simp [getCompletionType, hline, hin]
  refine ⟨?_, ?_, ?_⟩
  · intro h
    have hne : getAttributesFromText line ≠ [] := (getAttrTokensNeNilIff line).mpr h
    have hb : textContainsAttributes line = true := by
      rw [textContainsAttributes]
      exact decide_eq_true (List.length_pos.mpr hne)
    rw [hred, getCompletionTypeForIncompleteCompletion, hb]
    simp
  · intro h htags
    have hnil : getAttributesFromText line = [] := by
      by_contra hx
      exact h ((getAttrTokensNeNilIff line).mp hx)
    have hb : textContainsAttributes line = false := by
      rw [textContainsAttributes, hnil]
      rfl
    have ht : textContainsTags line = true := by
      rw [textContainsTags]
      exact decide_eq_true (List.length_pos.mpr htags)
    rw [hred, getCompletionTypeForIncompleteCompletion, hb, ht]
    simp
  · intro h htags
    have hnil : getAttributesFromText line = [] := by
      by_contra hx
      exact h ((getAttrTokensNeNilIff line).mp hx)
    have hb : textContainsAttributes line = false := by
      rw [textContainsAttributes, hnil]
      rfl
    have ht : textContainsTags line = false := by
      rw [textContainsTags, htags]
      rfl
    rw [hred, getCompletionTypeForIncompleteCompletion, hb, ht]
    simp

/-- C7 (witness): concrete instance of the amended claim. -/
theorem incompleteClassificationWitness :
    getCompletionType (lineModel "<a b") posOne
      ⟨CompletionTriggerKind.Invoke, none⟩ =
      CompletionType.incompleteAttribute :=
  (incompleteClassification "<a b" ⟨CompletionTriggerKind.Invoke, none⟩
    (Or.inl rfl) (by rfl)).1 ⟨2, by rfl⟩

/-- C8 (counterexample): a closing-element request with an absent parent tag
(empty unclosed-tag stack) does NOT return an empty suggestion sequence: it
returns one completion whose label is the undefined parent. -/
theorem absentParentClosingCounterexample :
    getCompletions mgrEmpty c8Model c8Pos c8Ctx = getClosingElementCompletion none ∧
    getClosingElementCompletion none ≠ ([] : List ICompletion) := by
  refine ⟨by rfl, by decide⟩

/-- C8 (amended): a request with an unknown or unregistered namespace prefix,
or with a binding whose schema path is not loaded, yields an empty suggestion
sequence for every completion kind other than `closingElement`; a
`closingElement` request with an absent parent tag instead yields the single
closing completion for the undefined parent. -/
theorem emptyOnUnresolvedNamespace (mgr : XsdManager) (model : TextModel)
    (pos : TextPos) (ctx : CompletionContext) :
    ((getCompletionType model pos ctx ≠ CompletionType.closingElement) →
      getCompletionNamespace model pos ≠ "" →
      mapGet (getXsdNamespaces model) (getCompletionNamespace model pos) = none →
      getCompletions mgr model pos ctx = []) ∧
    (∀ info : INamespaceInfo,
      (getCompletionType model pos ctx ≠ CompletionType.closingElement) →
      getCompletionNamespace model pos ≠ "" →
      mapGet (getXsdNamespaces model) (getCompletionNamespace model pos) =
        some info →
      mgr.get info.path = none →
      getCompletions mgr model pos ctx = []) ∧
    (getCompletionType model pos ctx = CompletionType.closingElement →
      getParentTag model pos = none →
      getCompletions mgr model pos ctx = getClosingElementCompletion none) := by
  refine ⟨?_, ?_, ?_⟩
  · intro h1 h2 h3
    by_cases h0 : getCompletionType model pos ctx = CompletionType.none
    · simp [getCompletions, h0]
    · have hw : getXsdWorkersForNamespace mgr (getXsdNamespaces model)
          (getCompletionNamespace model pos) = [] := by
        simp [getXsdWorkersForNamespace, h2, h3]
      simp [getCompletions, h0, h1, hw]
  · intro info h1 h2 h3 h4
    by_cases h0 : getCompletionType model pos ctx = CompletionType.none
    · simp [getCompletions, h0]
    · have hw : getXsdWorkersForNamespace mgr (getXsdNamespaces model)
          (getCompletionNamespace model pos) = [] := by
        simp [getXsdWorkersForNamespace, h2, h3, h4]
      simp [getCompletions, h0, h1, hw]
  · intro h1 h2
    simp [getCompletions, h1, h2]

/-- C8 (witness): the three concrete scenarios of the amended claim — unknown
prefix, unloaded schema path, and closing element with absent parent. -/
theorem emptyOnUnresolvedNamespaceWitness :
    getCompletions mgrEmpty (lineModel "<ns:a ") posOne
      ⟨CompletionTriggerKind.TriggerCharacter, some " "⟩ = [] ∧
    getCompletions mgrEmpty
      (lineModel "<urn:x xmlns:q=\"urn\" xsi:schemaLocation=\"urn b.xsd\" ")
      posOne ⟨CompletionTriggerKind.TriggerCharacter, some " "⟩ = [] ∧
    getCompletions mgrEmpty c8Model c8Pos c8Ctx = getClosingElementCompletion none := by
  refine ⟨?_, ?_, ?_⟩
  · exact (emptyOnUnresolvedNamespace mgrEmpty (lineModel "<ns:a ") posOne
      ⟨CompletionTriggerKind.TriggerCharacter, some " "⟩).1
      (by decide) (by decide) (by rfl)
  · exact (emptyOnUnresolvedNamespace mgrEmpty
      (lineModel "<urn:x xmlns:q=\"urn\" xsi:schemaLocation=\"urn b.xsd\" ")
      posOne ⟨CompletionTriggerKind.TriggerCharacter, some " "⟩).2.1
      { pfx := some "q", path := "b.xsd" } (by decide) (by decide) (by rfl) (by rfl)
  · exact (emptyOnUnresolvedNamespace mgrEmpty c8Model c8Pos c8Ctx).2.2
      (by rfl) (by rfl)

/-- C6: on a single cache instance, the first `elements` or `attributes` call
for a key with no stored entry performs exactly one provider fetch and stores
the result; a subsequent call with the same key returns the stored result,
performs no fetch, and leaves the cache unchanged. -/
theorem cacheMemoization (c : CodeSuggestionCache) (k : Option String)
    (e : String)
    (hE : CodeSuggestionCache.getElementCollection c
      (match k with | none => "rootElements" | some p => p) = none)
    (hA : CodeSuggestionCache.getAttributeCollection c e = none) :
    (CodeSuggestionCache.elements c k).2.2 =
      [match k with | none => Fetch.root | some p => Fetch.sub p] ∧
    (CodeSuggestionCache.elements (CodeSuggestionCache.elements c k).2.1 k).1 =
      (CodeSuggestionCache.elements c k).1 ∧
    (CodeSuggestionCache.elements (CodeSuggestionCache.elements c k).2.1 k).2.2 =
      ([] : List Fetch) ∧
    (CodeSuggestionCache.elements (CodeSuggestionCache.elements c k).2.1 k).2.1 =
      (CodeSuggestionCache.elements c k).2.1 ∧
    (CodeSuggestionCache.attributes c e).2.2 = [Fetch.attr e] ∧
    (CodeSuggestionCache.attributes (CodeSuggestionCache.attributes c e).2.1 e).1 =
      (CodeSuggestionCache.attributes c e).1 ∧
    (CodeSuggestionCache.attributes (CodeSuggestionCache.attributes c e).2.1 e).2.2 =
      ([] : List Fetch) := by
  have hsetA := getAttributeCollection_set c e (c.xsd.getAttributesForElement e)
  have hfstA := setAttributeCollection_fst c e (c.xsd.getAttributesForElement e)
  cases k with
  | none =>
    simp only at hE
    have hset := getElementCollection_set c "rootElements" c.xsd.getRootElements
    have hfst := setElementCollection_fst c "rootElements" c.xsd.getRootElements
    simp [CodeSuggestionCache.elements, CodeSuggestionCache.rootElements,
      CodeSuggestionCache.getRootElements, CodeSuggestionCache.attributes,
      CodeSuggestionCache.getAttributes, hE, hA, hset, hfst, hsetA, hfstA]
  | some p =>
    simp only at hE
    have hset := getElementCollection_set c p (c.xsd.getSubElements p)
    have hfst := setElementCollection_fst c p (c.xsd.getSubElements p)
    simp [CodeSuggestionCache.elements, CodeSuggestionCache.subElements,
      CodeSuggestionCache.getSubElements, CodeSuggestionCache.attributes,
      CodeSuggestionCache.getAttributes, hE, hA, hset, hfst, hsetA, hfstA]

/-- C6 (witness): on a fresh cache, two successive `elements` calls with an
absent parent fetch the root elements exactly once and agree. -/
theorem cacheMemoizationWitness :
    (CodeSuggestionCache.elements freshCache none).2.2 = [Fetch.root] ∧
    (CodeSuggestionCache.elements
      (CodeSuggestionCache.elements freshCache none).2.1 none).1 =
      (CodeSuggestionCache.elements freshCache none).1 ∧
    (CodeSuggestionCache.elements
      (CodeSuggestionCache.elements freshCache none).2.1 none).2.2 =
      ([] : List Fetch) := by
  have h := cacheMemoization freshCache none "book" (by rfl) (by rfl)
  exact ⟨h.1, h.2.1, h.2.2.1⟩

/-- C10: the root-element list is cached under the literal key "rootElements"
in the same key space as parent-element names: once `elements` has been called
with an absent parent, `elements (some "rootElements")` returns the cached
root-element list and performs no fetch at all — in particular it never
invokes the provider's `getSubElements "rootElements"`. -/
theorem rootElementsKeyShared (c : CodeSuggestionCache) :
    (CodeSuggestionCache.elements (CodeSuggestionCache.elements c none).2.1
      (some "rootElements")).1 = (CodeSuggestionCache.elements c none).1 ∧
    (CodeSuggestionCache.elements (CodeSuggestionCache.elements c none).2.1
      (some "rootElements")).2.2 = ([] : List Fetch) := by
  cases hres : CodeSuggestionCache.getElementCollection c "rootElements" with
  | some v =>
    simp [CodeSuggestionCache.elements, CodeSuggestionCache.rootElements,
      CodeSuggestionCache.subElements, hres]
  | none =>
    have hset := getElementCollection_set c "rootElements" c.xsd.getRootElements
    have hfst := setElementCollection_fst c "rootElements" c.xsd.getRootElements
    simp [CodeSuggestionCache.elements, CodeSuggestionCache.rootElements,
      CodeSuggestionCache.getRootElements, CodeSuggestionCache.subElements,
      hres, hset, hfst]
